import Mathlib

/-!
Shallow embedding of the festival-pulse ingestion core
(`src/scraper/src/sync.ts`, `src/scraper/src/ra-client.ts`,
`src/scraper/src/scrape-extra.ts`, `src/scraper/src/manual-enrich.ts`,
store constraints from `src/web/src/db/schema.ts`).

The relational store is modelled as explicit lists of rows with a
row-id counter; every `db.select().where(eq(col, k)).limit(1)` becomes a
`List.find?` on the corresponding table, every `db.insert(...).values(...)`
an append, and `onConflictDoNothing()` on the unique `(festivalId, artistId)`
index a guarded append.  JavaScript `x || null` falsiness on strings is
modelled explicitly (`jsOrNull`).  Fallible store writes (per-artist
try/catch) are modelled by a fault oracle giving, per artist position,
the error message the store write would throw with, or `none` for success.
-/

namespace FestivalPulse

/-! ## Entity resolver: the three `slugify` implementations -/

/-- JavaScript `String.prototype.toLowerCase`, restricted to the ASCII and
Latin-1 repertoire that the repository's data uses: `A`–`Z` and the
precomposed Latin-1 capitals `À`–`Þ` (except `×`) map down by `0x20`;
every other character is left unchanged. -/
def jsToLower (c : Char) : Char :=
  if 'A' ≤ c && c ≤ 'Z' then Char.ofNat (c.toNat + 32)
  else if 0xC0 ≤ c.toNat && c.toNat ≤ 0xDE && c.toNat != 0xD7 then
    Char.ofNat (c.toNat + 32)
  else c

/-- The character class `[a-z0-9]` of the slugify regexes. -/
def isAlnum (c : Char) : Bool :=
  ('a' ≤ c && c ≤ 'z') || ('0' ≤ c && c ≤ '9')

/-- Regex step `replace(/[^a-z0-9]+/g, "-")`: collapse every maximal run of characters
outside `[a-z0-9]` to a single `'-'`.  The boolean records whether the
previous character was part of such a run (so the run emits one hyphen). -/
def collapseAux : Bool → List Char → List Char
  | _, [] => []
  | inRun, c :: rest =>
    if isAlnum c then c :: collapseAux false rest
    else if inRun then collapseAux true rest
    else '-' :: collapseAux true rest

/-- Regex step `replace(/^-|-$/g, "")`: drop one leading and one trailing `'-'`. -/
def trimHyphens (l : List Char) : List Char :=
  let l1 := if l.head? = some '-' then l.tail else l
  if l1.getLast? = some '-' then l1.dropLast else l1

/-- The `slugify` of `src/scraper/src/sync.ts` (lines 16–21):
`text.toLowerCase().replace(/[^a-z0-9]+/g, "-").replace(/^-|-$/g, "")`. -/
def slugify (text : String) : String :=
  ⟨trimHyphens (collapseAux false (text.data.map jsToLower))⟩

/-- The `slugify` of `src/scraper/src/scrape-extra.ts` (lines 16–21); its body is
textually the same pipeline as the one in `sync.ts`. -/
def scrapeExtraSlugify (text : String) : String :=
  ⟨trimHyphens (collapseAux false (text.data.map jsToLower))⟩

/-- Canonical (NFD) decomposition of the precomposed Latin-1 letters:
base letter plus combining mark.  Letters without a decomposition
(`æ ð ø þ ß` and their capitals) return `none`. -/
def nfdBase : Char → Option (Char × Char)
  | 'À' => some ('A', '̀')
  | 'Á' => some ('A', '́')
  | 'Â' => some ('A', '̂')
  | 'Ã' => some ('A', '̃')
  | 'Ä' => some ('A', '̈')
  | 'Å' => some ('A', '̊')
  | 'Ç' => some ('C', '̧')
  | 'È' => some ('E', '̀')
  | 'É' => some ('E', '́')
  | 'Ê' => some ('E', '̂')
  | 'Ë' => some ('E', '̈')
  | 'Ì' => some ('I', '̀')
  | 'Í' => some ('I', '́')
  | 'Î' => some ('I', '̂')
  | 'Ï' => some ('I', '̈')
  | 'Ñ' => some ('N', '̃')
  | 'Ò' => some ('O', '̀')
  | 'Ó' => some ('O', '́')
  | 'Ô' => some ('O', '̂')
  | 'Õ' => some ('O', '̃')
  | 'Ö' => some ('O', '̈')
  | 'Ù' => some ('U', '̀')
  | 'Ú' => some ('U', '́')
  | 'Û' => some ('U', '̂')
  | 'Ü' => some ('U', '̈')
  | 'Ý' => some ('Y', '́')
  | 'à' => some ('a', '̀')
  | 'á' => some ('a', '́')
  | 'â' => some ('a', '̂')
  | 'ã' => some ('a', '̃')
  | 'ä' => some ('a', '̈')
  | 'å' => some ('a', '̊')
  | 'ç' => some ('c', '̧')
  | 'è' => some ('e', '̀')
  | 'é' => some ('e', '́')
  | 'ê' => some ('e', '̂')
  | 'ë' => some ('e', '̈')
  | 'ì' => some ('i', '̀')
  | 'í' => some ('i', '́')
  | 'î' => some ('i', '̂')
  | 'ï' => some ('i', '̈')
  | 'ñ' => some ('n', '̃')
  | 'ò' => some ('o', '̀')
  | 'ó' => some ('o', '́')
  | 'ô' => some ('o', '̂')
  | 'õ' => some ('o', '̃')
  | 'ö' => some ('o', '̈')
  | 'ù' => some ('u', '̀')
  | 'ú' => some ('u', '́')
  | 'û' => some ('u', '̂')
  | 'ü' => some ('u', '̈')
  | 'ý' => some ('y', '́')
  | 'ÿ' => some ('y', '̈')
  | _ => none

/-- JavaScript `String.prototype.normalize("NFD")`, per character. -/
def nfdChar (c : Char) : List Char :=
  match nfdBase c with
  | some (b, m) => [b, m]
  | none => [c]

/-- The character class `[̀-ͯ]` (combining diacritical marks). -/
def isCombining (c : Char) : Bool :=
  0x300 ≤ c.toNat && c.toNat ≤ 0x36F

/-- The `slugify` of `src/scraper/src/manual-enrich.ts` (lines 11–18):
`name.toLowerCase().normalize("NFD").replace(/[̀-ͯ]/g, "")`
followed by the same collapse and trim as the other two. -/
def manualEnrichSlugify (name : String) : String :=
  ⟨trimHyphens (collapseAux false
    ((((name.data.map jsToLower).flatMap nfdChar).filter
      (fun c => !(isCombining c)))))⟩

/-! ## Input data model (`ra-client.ts` interfaces, with the nullability the
code actually guards against via `?.` and `|| null` / `|| []`) -/

structure RACountry where
  id : String
  name : String
deriving Repr, DecidableEq

structure RAArea where
  id : String
  name : String
  country : Option RACountry
deriving Repr, DecidableEq

structure RAVenue where
  id : String
  name : String
  address : Option String
  area : Option RAArea
deriving Repr, DecidableEq

structure RAImage where
  filename : String
deriving Repr, DecidableEq

structure RAArtist where
  id : String
  name : String
deriving Repr, DecidableEq

structure RAEvent where
  id : String
  title : String
  date : Option String
  startTime : Option String
  endTime : Option String
  contentUrl : Option String
  attending : Nat
  images : List RAImage
  venue : Option RAVenue
  artists : List RAArtist
deriving Repr, DecidableEq

structure RAEventListing where
  id : String
  listingDate : String
  event : RAEvent
deriving Repr, DecidableEq

/-! ## Store model (`schema.ts` tables consumed by the sync) -/

structure VenueRow where
  id : Nat
  name : String
  city : Option String
  country : Option String
  address : Option String
deriving Repr, DecidableEq

structure ArtistRow where
  id : Nat
  name : String
  slug : String
  raUrl : Option String
deriving Repr, DecidableEq

structure FestivalRow where
  id : Nat
  name : String
  slug : String
  startDate : Option String
  endDate : Option String
  venueId : Option Nat
  websiteUrl : Option String
  imageUrl : Option String
  status : String
  metaRaId : Option String
  metaAttending : Option Nat
deriving Repr, DecidableEq

structure LineupRow where
  festivalId : Nat
  artistId : Nat
  performanceDate : Option String
  startTime : Option String
  endTime : Option String
deriving Repr, DecidableEq

structure LogRow where
  status : String
  festivalsFound : Nat
  artistsFound : Nat
  errors : List String
  duration : Nat
deriving Repr, DecidableEq

structure Store where
  venues : List VenueRow
  artists : List ArtistRow
  festivals : List FestivalRow
  lineups : List LineupRow
  scrapeLogs : List LogRow
  nextId : Nat
deriving Repr, DecidableEq

def emptyStore : Store :=
  { venues := [], artists := [], festivals := [], lineups := [],
    scrapeLogs := [], nextId := 0 }

/-! ## Reconciliation engine (`sync.ts` upserts) -/

/-- JavaScript `x || null` applied to an optional string: `undefined`,
`null` and the empty string all become `null`. -/
def jsOrNull : Option String → Option String
  | some s => if s = "" then none else some s
  | none => none

/-- JavaScript `event.date?.split("T")[0] || null`. -/
def jsDatePart : Option String → Option String
  | none => none
  | some s =>
    let d := (s.splitOn "T").headD ""
    if d = "" then none else some d

/-- JavaScript `t?.split("T")[1]?.slice(0, 5) || null`. -/
def jsTimePart : Option String → Option String
  | none => none
  | some s =>
    match (s.splitOn "T").get? 1 with
    | none => none
    | some p =>
      let q : String := ⟨p.data.take 5⟩
      if q = "" then none else some q

/-- Function `upsertVenue` (`sync.ts` lines 23–47): bail out with `null` when the
listing has no named venue; otherwise look up by exact name and insert
`{name, city, country, address}` when absent. -/
def upsertVenue (ev : RAEvent) (s : Store) : Option Nat × Store :=
  match ev.venue with
  | none => (none, s)
  | some v =>
    if v.name = "" then (none, s)
    else
      match s.venues.find? (fun r => r.name == v.name) with
      | some r => (some r.id, s)
      | none =>
        (some s.nextId,
         { s with
            venues := s.venues ++
              [{ id := s.nextId
                 name := v.name
                 city := jsOrNull (v.area.map (·.name))
                 country := jsOrNull ((v.area.bind (·.country)).map (·.name))
                 address := jsOrNull v.address }]
            nextId := s.nextId + 1 })

/-- Function `upsertArtist` (`sync.ts` lines 49–69): look up by slug, insert
`{name, slug, raUrl}` when absent. -/
def upsertArtist (a : RAArtist) (s : Store) : Nat × Store :=
  match s.artists.find? (fun r => r.slug == slugify a.name) with
  | some r => (r.id, s)
  | none =>
    (s.nextId,
     { s with
        artists := s.artists ++
          [{ id := s.nextId, name := a.name, slug := slugify a.name
             raUrl := some ("https://ra.co/dj/" ++ slugify a.name) }]
        nextId := s.nextId + 1 })

/-- The composite festival slug `slugify(event.title) + "-" + event.id`. -/
def festSlug (ev : RAEvent) : String :=
  slugify ev.title ++ "-" ++ ev.id

/-- The `websiteUrl` derivation: `event.contentUrl ? "https://ra.co" +
event.contentUrl : null` (with `""` falsy). -/
def festWebsiteUrl (ev : RAEvent) : Option String :=
  match ev.contentUrl with
  | some u => if u = "" then none else some ("https://ra.co" ++ u)
  | none => none

/-- The `imageUrl` derivation from `event.images?.[0]?.filename`. -/
def festImageUrl (ev : RAEvent) : Option String :=
  match ev.images.head? with
  | some img =>
    if img.filename = "" then none
    else some ("https://ra.co/images/events/flyer/" ++ img.filename)
  | none => none

/-- Function `upsertFestival` (`sync.ts` lines 71–106): look up by the composite slug,
insert the derived row when absent. -/
def upsertFestival (ev : RAEvent) (venueId : Option Nat) (s : Store) :
    Nat × Store :=
  match s.festivals.find? (fun r => r.slug == festSlug ev) with
  | some r => (r.id, s)
  | none =>
    (s.nextId,
     { s with
        festivals := s.festivals ++
          [{ id := s.nextId
             name := ev.title
             slug := festSlug ev
             startDate := jsDatePart ev.date
             endDate := jsDatePart ev.date
             venueId := venueId
             websiteUrl := festWebsiteUrl ev
             imageUrl := festImageUrl ev
             status := "upcoming"
             metaRaId := some ev.id
             metaAttending := some ev.attending }]
        nextId := s.nextId + 1 })

/-- The `festivalLineups` insert with `.onConflictDoNothing()` against the
unique index `unique_lineup (festival_id, artist_id)`
(`schema.ts` lines 65–89): a duplicate pair is swallowed silently. -/
def insertLineup (festivalId artistId : Nat)
    (pd st et : Option String) (s : Store) : Store :=
  if s.lineups.any (fun r => r.festivalId == festivalId && r.artistId == artistId)
  then s
  else
    { s with lineups := s.lineups ++
        [{ festivalId := festivalId, artistId := artistId,
           performanceDate := pd, startTime := st, endTime := et }] }

/-! ## Sync orchestrator (`sync.ts` `syncArea` and `main`) -/

/-- The mutable run counters of `syncArea`: `festivalsFound`,
`artistsFound`, and the collected `errors` list. -/
structure RunAcc where
  festivalsFound : Nat
  artistsFound : Nat
  errors : List String
deriving Repr, DecidableEq

/-- One iteration of the inner artist loop (`sync.ts` lines 132–151).
`fault = some msg` models the store write for this artist throwing with
message `msg`; the surrounding `catch` then records
`` `Artist ${artist.name}: ${err.message}` `` and moves on. -/
def processArtist (ev : RAEvent) (festivalId : Nat) (a : RAArtist)
    (fault : Option String) (s : Store) (acc : RunAcc) : Store × RunAcc :=
  match fault with
  | some msg =>
    (s, { acc with errors := acc.errors ++ ["Artist " ++ a.name ++ ": " ++ msg] })
  | none =>
    (insertLineup festivalId (upsertArtist a s).1 (jsDatePart ev.date)
      (jsTimePart ev.startTime) (jsTimePart ev.endTime) (upsertArtist a s).2,
     { acc with artistsFound := acc.artistsFound + 1 })

/-- The artist loop, the fault oracle indexed by position in the list. -/
def artistsLoop (ev : RAEvent) (festivalId : Nat) :
    List RAArtist → (Nat → Option String) → Store → RunAcc → Store × RunAcc
  | [], _, s, acc => (s, acc)
  | a :: rest, fault, s, acc =>
    artistsLoop ev festivalId rest (fun j => fault (j + 1))
      (processArtist ev festivalId a (fault 0) s acc).1
      (processArtist ev festivalId a (fault 0) s acc).2

/-- One iteration of the listing loop (`sync.ts` lines 120–154): venue
upsert, festival upsert, `festivalsFound++`, then the artist loop. -/
def processListing (l : RAEventListing) (fault : Nat → Option String)
    (s : Store) (acc : RunAcc) : Store × RunAcc :=
  artistsLoop l.event
    (upsertFestival l.event (upsertVenue l.event s).1 (upsertVenue l.event s).2).1
    l.event.artists fault
    (upsertFestival l.event (upsertVenue l.event s).1 (upsertVenue l.event s).2).2
    { acc with festivalsFound := acc.festivalsFound + 1 }

/-- The listing loop, the fault oracle indexed by (listing, artist). -/
def listingsLoop :
    List RAEventListing → (Nat → Nat → Option String) → Store → RunAcc →
    Store × RunAcc
  | [], _, s, acc => (s, acc)
  | l :: rest, fault, s, acc =>
    listingsLoop rest (fun i => fault (i + 1))
      (processListing l (fault 0) s acc).1
      (processListing l (fault 0) s acc).2

structure SyncResult where
  festivalsFound : Nat
  artistsFound : Nat
  errors : List String
deriving Repr, DecidableEq

/-- The fault oracle of a run in which no store write throws. -/
def noFault : Nat → Nat → Option String := fun _ _ => none

/-- The body of `syncArea`'s outer `try`/`catch`: on a client throw
(area-level `catch`) record one aggregate message and keep zero counts;
otherwise run the listing loop. -/
def syncAreaCore (areaName : String)
    (fetched : Except String (List RAEventListing))
    (fault : Nat → Nat → Option String) (s : Store) : Store × RunAcc :=
  match fetched with
  | .error msg =>
    (s, { festivalsFound := 0, artistsFound := 0,
          errors := ["Area " ++ areaName ++ ": " ++ msg] })
  | .ok listings => listingsLoop listings fault s ⟨0, 0, []⟩

/-- The `scrapeLogs` row `syncArea` writes from the final counters. -/
def areaLog (acc : RunAcc) (duration : Nat) : LogRow :=
  { status := if acc.errors.length > 0 then "partial" else "success"
    festivalsFound := acc.festivalsFound
    artistsFound := acc.artistsFound
    errors := acc.errors.take 20
    duration := duration }

/-- Function `syncArea` (`sync.ts` lines 108–174).  The network fetch is passed in as
its outcome: `.ok listings` when `fetchRAEvents` returned, `.error msg`
when it threw (caught by the area-level `catch`, recording
`` `Area ${areaName}: ${msg}` `` with zero counts).  Finally one
`scrapeLogs` row is inserted: status `"partial"` iff any error was
collected, errors capped at the first 20 (`errors.slice(0, 20)`). -/
def syncArea (areaName : String)
    (fetched : Except String (List RAEventListing))
    (fault : Nat → Nat → Option String) (duration : Nat) (s : Store) :
    SyncResult × Store :=
  (⟨(syncAreaCore areaName fetched fault s).2.festivalsFound,
    (syncAreaCore areaName fetched fault s).2.artistsFound,
    (syncAreaCore areaName fetched fault s).2.errors⟩,
   { (syncAreaCore areaName fetched fault s).1 with
      scrapeLogs := (syncAreaCore areaName fetched fault s).1.scrapeLogs ++
        [areaLog (syncAreaCore areaName fetched fault s).2 duration] })

/-- The external inputs one `syncArea` call depends on. -/
structure AreaEnv where
  fetched : Except String (List RAEventListing)
  fault : Nat → Nat → Option String
  duration : Nat

/-- The hard-coded region list of `main` (`sync.ts` lines 192–194):
MVP, Costa Rica only. -/
def targetAreas : List (String × Nat) := [("Costa Rica", 26)]

/-- Function `main` (`sync.ts` lines 177–203): run `syncArea` over `targetAreas`
sequentially, summing the informational totals. -/
def runMain (env : String × Nat → AreaEnv) (s : Store) : (Nat × Nat) × Store :=
  targetAreas.foldl
    (fun (t : (Nat × Nat) × Store) area =>
      let r := syncArea area.1 (env area).fetched (env area).fault
        (env area).duration t.2
      ((t.1.1 + r.1.festivalsFound, t.1.2 + r.1.artistsFound), r.2))
    ((0, 0), s)

/-! ## API client (`ra-client.ts` `fetchRAEvents`) -/

/-- One page response: either a non-success transport response
(`!res.ok`, carrying the status code) or a parsed body with the page's
listings and the declared `totalResults`.  A malformed body
(`json.data?.eventListings?.data` missing) behaves like an empty page. -/
inductive PageResp where
  | httpError (status : Nat)
  | ok (data : List RAEventListing) (totalResults : Nat)

/-- The `while (true)` pagination loop of `fetchRAEvents`
(`ra-client.ts` lines 105–157), fuel-indexed: `none` means the fuel ran
out before the loop stopped on its own.  Stop conditions, in source
order: non-success response (return what was accumulated), empty page
(likewise), or cumulative count reaching `totalResults` (return
including the page just fetched). -/
def fetchRAEventsAux (respond : Nat → PageResp) :
    Nat → Nat → List RAEventListing → Option (List RAEventListing)
  | 0, _, _ => none
  | fuel + 1, page, acc =>
    match respond page with
    | .httpError _ => some acc
    | .ok listings totalResults =>
      if listings.length = 0 then some acc
      else
        let acc2 := acc ++ listings
        if totalResults ≤ acc2.length then some acc2
        else fetchRAEventsAux respond fuel (page + 1) acc2

/-- Function `fetchRAEvents`: pages start at 1, accumulator starts empty. -/
def fetchRAEvents (respond : Nat → PageResp) (fuel : Nat) :
    Option (List RAEventListing) :=
  fetchRAEventsAux respond fuel 1 []

/-- Concatenation of pages `1..n` in order. -/
def pagesConcat (data : Nat → List RAEventListing) : Nat → List RAEventListing
  | 0 => []
  | n + 1 => pagesConcat data n ++ data (n + 1)

/-! ## Helper lemmas -/

theorem find?_append_of_some {α : Type} (p : α → Bool) {l : List α}
    (t : List α) {x : α} (h : l.find? p = some x) :
    (l ++ t).find? p = some x := by
  rw [List.find?_append, h]; rfl

/-- Every character emitted by the collapse step is in `[a-z0-9]` or is a
hyphen. -/
theorem collapseAux_chars (l : List Char) (b : Bool) :
    ∀ c ∈ collapseAux b l, isAlnum c = true ∨ c = '-' := by
  induction l generalizing b with
  | nil => simp [collapseAux]
  | cons c rest ih =>
    intro d hd
    simp only [collapseAux] at hd
    by_cases hc : isAlnum c
    · rw [if_pos hc] at hd
      rcases List.mem_cons.mp hd with h | h
      · left; rw [h]; exact hc
      · exact ih false d h
    · rw [if_neg hc] at hd
      cases b with
      | true =>
        rw [if_pos rfl] at hd
        exact ih true d hd
      | false =>
        rw [if_neg (by simp)] at hd
        rcases List.mem_cons.mp hd with h | h
        · right; exact h
        · exact ih true d h

/-- The trim step only removes characters. -/
theorem trimHyphens_subset (l : List Char) : trimHyphens l ⊆ l := by
  unfold trimHyphens
  split
  · show (if l.tail.getLast? = some '-' then l.tail.dropLast else l.tail) ⊆ l
    split
    · exact (List.dropLast_subset _).trans (List.tail_subset l)
    · exact List.tail_subset l
  · show (if l.getLast? = some '-' then l.dropLast else l) ⊆ l
    split
    · exact List.dropLast_subset _
    · exact fun _ h => h

/-- On a list in which no character decomposes and none is a combining
mark, the NFD-plus-strip steps of `manualEnrichSlugify` are the
identity. -/
theorem nfd_strip_id (l : List Char)
    (h : ∀ c ∈ l, nfdBase c = none ∧ isCombining c = false) :
    (l.flatMap nfdChar).filter (fun c => !(isCombining c)) = l := by
  induction l with
  | nil => rfl
  | cons c rest ih =>
    have hc := h c (List.mem_cons_self c rest)
    have hrest := ih fun d hd => h d (List.mem_cons_of_mem c hd)
    simp only [List.flatMap_cons, nfdChar, hc.1, List.filter_append,
      List.filter_cons, List.filter_nil, hc.2, Bool.not_false, if_pos rfl]
    simpa using hrest

/-! ## Claim theorems: entity resolver -/

/-- C2 (counterexample): the claim that two names differing only by
diacritics slugify identically is false: `slugify` does not strip
diacritics, so `"Café"` and `"Cafe"` get different slugs. -/
theorem slugify_diacritics_counterexample :
    slugify "Café" = "caf" ∧ slugify "Cafe" = "cafe" ∧
      slugify "Café" ≠ slugify "Cafe" := by
  refine ⟨by decide, by decide, by decide⟩

/-- C2 (amended): `slugify` lowercases its input, collapses every run of
characters outside `[a-z0-9]` to a single hyphen and trims one leading
and one trailing hyphen; names that agree after lowercasing (in
particular names differing only by casing) get the same slug — but
diacritics are not stripped: a diacritic letter is treated like any
other non-alphanumeric character (e.g. `"Café"` slugifies to `"caf"`,
not `"cafe"`). -/
theorem slugify_amended :
    (∀ s t : String, s.data.map jsToLower = t.data.map jsToLower →
        slugify s = slugify t) ∧
    (∀ s : String, ∀ c ∈ (slugify s).data, isAlnum c = true ∨ c = '-') ∧
    slugify "Café" = "caf" := by
  refine ⟨fun s t h => ?_, fun s c hc => ?_, by decide⟩
  · unfold slugify
    rw [h]
  · exact collapseAux_chars _ false c (trimHyphens_subset _ hc)

/-- C2 witness for `slugify_amended`: two names differing only by casing
collapse to the same slug. -/
theorem slugify_amended_witness :
    ("AbC dEf".data.map jsToLower = "aBc DeF".data.map jsToLower) ∧
      slugify "AbC dEf" = slugify "aBc DeF" :=
  ⟨by decide, slugify_amended.1 "AbC dEf" "aBc DeF" (by decide)⟩

/-- C9 (counterexample): the three `slugify` implementations do not compute
the same function: on `"Löffler"` the `manual-enrich.ts` version (which
strips diacritics via NFD) returns `"loffler"` while the `sync.ts`
version returns `"l-ffler"`. -/
theorem slugify_consistency_counterexample :
    slugify "Löffler" = "l-ffler" ∧
      manualEnrichSlugify "Löffler" = "loffler" ∧
      manualEnrichSlugify "Löffler" ≠ slugify "Löffler" := by
  refine ⟨by decide, by decide, by decide⟩

/-- C9 (amended): the `sync.ts` and `scrape-extra.ts` implementations
compute the same slug on every input, and the `manual-enrich.ts`
implementation agrees with them on every input whose (lowercased)
characters neither decompose under NFD nor are combining marks; it
differs on diacritic inputs, which it strips while the other two
collapse to hyphens. -/
theorem slugify_consistency_amended :
    (∀ s : String, scrapeExtraSlugify s = slugify s) ∧
    (∀ s : String,
      (∀ c ∈ s.data, nfdBase (jsToLower c) = none ∧
          isCombining (jsToLower c) = false) →
      manualEnrichSlugify s = slugify s) := by
  refine ⟨fun s => rfl, fun s h => ?_⟩
  unfold manualEnrichSlugify slugify
  rw [nfd_strip_id]
  intro c hc
  rcases List.mem_map.mp hc with ⟨d, hd, rfl⟩
  exact h d hd

/-- C9 witness for `slugify_consistency_amended`: on a plain ASCII name all
three implementations agree. -/
theorem slugify_consistency_amended_witness :
    (∀ c ∈ "Bob Moses".data, nfdBase (jsToLower c) = none ∧
        isCombining (jsToLower c) = false) ∧
      manualEnrichSlugify "Bob Moses" = slugify "Bob Moses" :=
  ⟨by decide, slugify_consistency_amended.2 "Bob Moses" (by decide)⟩

/-! ## Store extension: the sync operations only append table rows and
never touch the run log -/

/-- Store `s'` extends `s`: every table of `s'` is the corresponding table of `s`
with zero or more rows appended, and the run log is untouched. -/
structure Ext (s s' : Store) : Prop where
  venues : ∃ t, s'.venues = s.venues ++ t
  artists : ∃ t, s'.artists = s.artists ++ t
  festivals : ∃ t, s'.festivals = s.festivals ++ t
  lineups : ∃ t, s'.lineups = s.lineups ++ t
  logs : s'.scrapeLogs = s.scrapeLogs

theorem Ext.refl (s : Store) : Ext s s :=
  ⟨⟨[], by simp⟩, ⟨[], by simp⟩, ⟨[], by simp⟩, ⟨[], by simp⟩, rfl⟩

theorem Ext.trans {s s' s'' : Store} (h : Ext s s') (h' : Ext s' s'') :
    Ext s s'' := by
  obtain ⟨⟨t1, e1⟩, ⟨t2, e2⟩, ⟨t3, e3⟩, ⟨t4, e4⟩, e5⟩ := h
  obtain ⟨⟨u1, f1⟩, ⟨u2, f2⟩, ⟨u3, f3⟩, ⟨u4, f4⟩, f5⟩ := h'
  exact ⟨⟨t1 ++ u1, by rw [f1, e1, List.append_assoc]⟩,
         ⟨t2 ++ u2, by rw [f2, e2, List.append_assoc]⟩,
         ⟨t3 ++ u3, by rw [f3, e3, List.append_assoc]⟩,
         ⟨t4 ++ u4, by rw [f4, e4, List.append_assoc]⟩,
         by rw [f5, e5]⟩

/-- A successful `find?` is stable under store extension. -/
theorem Ext.find?_venues {s s' : Store} (h : Ext s s') (p : VenueRow → Bool)
    {r : VenueRow} (hf : s.venues.find? p = some r) :
    s'.venues.find? p = some r := by
  obtain ⟨t, e⟩ := h.venues
  rw [e]; exact find?_append_of_some p t hf

theorem Ext.find?_artists {s s' : Store} (h : Ext s s') (p : ArtistRow → Bool)
    {r : ArtistRow} (hf : s.artists.find? p = some r) :
    s'.artists.find? p = some r := by
  obtain ⟨t, e⟩ := h.artists
  rw [e]; exact find?_append_of_some p t hf

theorem Ext.find?_festivals {s s' : Store} (h : Ext s s')
    (p : FestivalRow → Bool) {r : FestivalRow}
    (hf : s.festivals.find? p = some r) :
    s'.festivals.find? p = some r := by
  obtain ⟨t, e⟩ := h.festivals
  rw [e]; exact find?_append_of_some p t hf

theorem Ext.mem_lineups {s s' : Store} (h : Ext s s') {r : LineupRow}
    (hm : r ∈ s.lineups) : r ∈ s'.lineups := by
  obtain ⟨t, e⟩ := h.lineups
  rw [e]; exact List.mem_append_left t hm

theorem upsertVenue_ext (ev : RAEvent) (s : Store) :
    Ext s (upsertVenue ev s).2 := by
  unfold upsertVenue
  split
  · exact Ext.refl s
  · split
    · exact Ext.refl s
    · split
      · exact Ext.refl s
      · exact ⟨⟨_, rfl⟩, ⟨[], by simp⟩, ⟨[], by simp⟩, ⟨[], by simp⟩, rfl⟩

theorem upsertArtist_ext (a : RAArtist) (s : Store) :
    Ext s (upsertArtist a s).2 := by
  unfold upsertArtist
  split
  · exact Ext.refl s
  · exact ⟨⟨[], by simp⟩, ⟨_, rfl⟩, ⟨[], by simp⟩, ⟨[], by simp⟩, rfl⟩

theorem upsertFestival_ext (ev : RAEvent) (venueId : Option Nat) (s : Store) :
    Ext s (upsertFestival ev venueId s).2 := by
  unfold upsertFestival
  split
  · exact Ext.refl s
  · exact ⟨⟨[], by simp⟩, ⟨[], by simp⟩, ⟨_, rfl⟩, ⟨[], by simp⟩, rfl⟩

theorem insertLineup_ext (fid aid : Nat) (pd st et : Option String)
    (s : Store) : Ext s (insertLineup fid aid pd st et s) := by
  unfold insertLineup
  split
  · exact Ext.refl s
  · exact ⟨⟨[], by simp⟩, ⟨[], by simp⟩, ⟨[], by simp⟩, ⟨_, rfl⟩, rfl⟩

theorem processArtist_ext (ev : RAEvent) (fid : Nat) (a : RAArtist)
    (fault : Option String) (s : Store) (acc : RunAcc) :
    Ext s (processArtist ev fid a fault s acc).1 := by
  unfold processArtist
  cases fault with
  | some msg => exact Ext.refl s
  | none =>
    exact (upsertArtist_ext a s).trans (insertLineup_ext _ _ _ _ _ _)

theorem artistsLoop_ext (ev : RAEvent) (fid : Nat) (artists : List RAArtist)
    (fault : Nat → Option String) (s : Store) (acc : RunAcc) :
    Ext s (artistsLoop ev fid artists fault s acc).1 := by
  induction artists generalizing fault s acc with
  | nil => exact Ext.refl s
  | cons a rest ih =>
    exact (processArtist_ext ev fid a (fault 0) s acc).trans (ih _ _ _)

theorem processListing_ext (l : RAEventListing) (fault : Nat → Option String)
    (s : Store) (acc : RunAcc) : Ext s (processListing l fault s acc).1 := by
  unfold processListing
  exact ((upsertVenue_ext l.event s).trans
    (upsertFestival_ext l.event _ _)).trans (artistsLoop_ext _ _ _ _ _ _)

theorem listingsLoop_ext (L : List RAEventListing)
    (fault : Nat → Nat → Option String) (s : Store) (acc : RunAcc) :
    Ext s (listingsLoop L fault s acc).1 := by
  induction L generalizing fault s acc with
  | nil => exact Ext.refl s
  | cons l rest ih =>
    exact (processListing_ext l (fault 0) s acc).trans (ih _ _ _)

/-! ## Upsert postconditions and no-op behaviour -/

theorem find?_append_right_singleton {α : Type} (p : α → Bool) (l : List α)
    (x : α) (hl : l.find? p = none) (hx : p x = true) :
    (l ++ [x]).find? p = some x := by
  rw [List.find?_append, hl]
  simp [List.find?_cons, hx]

/-- After `upsertVenue` on a listing with a named venue, a row with that
exact name is findable. -/
theorem upsertVenue_found (ev : RAEvent) (s : Store) (v : RAVenue)
    (hv : ev.venue = some v) (hn : ¬v.name = "") :
    ∃ r, (upsertVenue ev s).2.venues.find? (fun x => x.name == v.name) =
      some r := by
  unfold upsertVenue
  cases hf : List.find? (fun r => r.name == v.name) s.venues with
  | some r => simp only [hv, if_neg hn, hf]; exact ⟨r, rfl⟩
  | none =>
    simp only [hv, if_neg hn, hf]
    exact ⟨_, find?_append_right_singleton _ _ _ hf (by simp)⟩

/-- Function `upsertVenue` is the identity on the store when every lookup it could
make already succeeds. -/
theorem upsertVenue_noop (ev : RAEvent) (s : Store)
    (h : ∀ v, ev.venue = some v → ¬v.name = "" →
      ∃ r, s.venues.find? (fun x => x.name == v.name) = some r) :
    (upsertVenue ev s).2 = s := by
  unfold upsertVenue
  cases hv : ev.venue with
  | none => rfl
  | some v =>
    by_cases hn : v.name = ""
    · simp only [if_pos hn]
    · obtain ⟨r, hf⟩ := h v hv hn
      simp only [if_neg hn, hf]

/-- Function `upsertArtist` makes the artist's row findable by slug and returns its
id. -/
theorem upsertArtist_spec (a : RAArtist) (s : Store) :
    ∃ ar : ArtistRow,
      (upsertArtist a s).2.artists.find?
        (fun r => r.slug == slugify a.name) = some ar ∧
      ar.id = (upsertArtist a s).1 := by
  unfold upsertArtist
  cases hf : List.find? (fun r => r.slug == slugify a.name) s.artists with
  | some r => simp only [hf]; exact ⟨r, rfl, rfl⟩
  | none =>
    simp only [hf]
    exact ⟨_, find?_append_right_singleton _ _ _ hf (by simp), rfl⟩

/-- When the slug lookup already succeeds, `upsertArtist` returns the found
id and leaves the store unchanged. -/
theorem upsertArtist_noop (a : RAArtist) (s : Store) (ar : ArtistRow)
    (hf : s.artists.find? (fun r => r.slug == slugify a.name) = some ar) :
    upsertArtist a s = (ar.id, s) := by
  unfold upsertArtist
  simp only [hf]

/-- Function `upsertFestival` makes the festival's row findable by its composite slug
and returns its id. -/
theorem upsertFestival_spec (ev : RAEvent) (venueId : Option Nat) (s : Store) :
    ∃ fr : FestivalRow,
      (upsertFestival ev venueId s).2.festivals.find?
        (fun r => r.slug == festSlug ev) = some fr ∧
      fr.id = (upsertFestival ev venueId s).1 := by
  unfold upsertFestival
  cases hf : List.find? (fun r => r.slug == festSlug ev) s.festivals with
  | some r => simp only [hf]; exact ⟨r, rfl, rfl⟩
  | none =>
    simp only [hf]
    exact ⟨_, find?_append_right_singleton _ _ _ hf (by simp), rfl⟩

/-- When the slug lookup already succeeds, `upsertFestival` returns the
found id and leaves the store unchanged. -/
theorem upsertFestival_noop (ev : RAEvent) (venueId : Option Nat) (s : Store)
    (fr : FestivalRow)
    (hf : s.festivals.find? (fun r => r.slug == festSlug ev) = some fr) :
    upsertFestival ev venueId s = (fr.id, s) := by
  unfold upsertFestival
  simp only [hf]

/-- After `insertLineup` the pair is present. -/
theorem insertLineup_mem (fid aid : Nat) (pd st et : Option String)
    (s : Store) :
    ∃ lr ∈ (insertLineup fid aid pd st et s).lineups,
      lr.festivalId = fid ∧ lr.artistId = aid := by
  unfold insertLineup
  split
  · rename_i h
    obtain ⟨lr, hm, hp⟩ := List.any_eq_true.mp h
    refine ⟨lr, hm, ?_, ?_⟩
    · exact beq_iff_eq.mp (Bool.and_elim_left hp)
    · exact beq_iff_eq.mp (Bool.and_elim_right hp)
  · exact ⟨_, List.mem_append_right _ (List.mem_singleton.mpr rfl), rfl, rfl⟩

/-- A duplicate `(festivalId, artistId)` insert is swallowed: the store is
returned unchanged. -/
theorem insertLineup_noop (fid aid : Nat) (pd st et : Option String)
    (s : Store)
    (h : ∃ lr ∈ s.lineups, lr.festivalId = fid ∧ lr.artistId = aid) :
    insertLineup fid aid pd st et s = s := by
  unfold insertLineup
  rw [if_pos]
  obtain ⟨lr, hm, h1, h2⟩ := h
  exact List.any_eq_true.mpr ⟨lr, hm, by simp [h1, h2]⟩

/-! ## Coverage: everything a listing needs is already present -/

/-- The artist's row is findable by slug and is linked to festival `fid`. -/
def ArtistCovered (s : Store) (fid : Nat) (a : RAArtist) : Prop :=
  ∃ ar : ArtistRow,
    s.artists.find? (fun r => r.slug == slugify a.name) = some ar ∧
    ∃ lr ∈ s.lineups, lr.festivalId = fid ∧ lr.artistId = ar.id

/-- Everything the listing's processing would insert is already present,
keyed exactly as the upserts look it up. -/
def Covered (s : Store) (l : RAEventListing) : Prop :=
  (∀ v, l.event.venue = some v → ¬v.name = "" →
    ∃ r, s.venues.find? (fun x => x.name == v.name) = some r) ∧
  ∃ fr : FestivalRow,
    s.festivals.find? (fun r => r.slug == festSlug l.event) = some fr ∧
    ∀ a ∈ l.event.artists, ArtistCovered s fr.id a

theorem artistCovered_mono {s s' : Store} (h : Ext s s') {fid : Nat}
    {a : RAArtist} (hc : ArtistCovered s fid a) : ArtistCovered s' fid a := by
  obtain ⟨ar, hfind, lr, hm, h1, h2⟩ := hc
  exact ⟨ar, h.find?_artists _ hfind, lr, h.mem_lineups hm, h1, h2⟩

theorem covered_mono {s s' : Store} (h : Ext s s') {l : RAEventListing}
    (hc : Covered s l) : Covered s' l := by
  obtain ⟨hv, fr, hfr, hart⟩ := hc
  refine ⟨fun v hvv hn => ?_, fr, h.find?_festivals _ hfr,
    fun a ha => artistCovered_mono h (hart a ha)⟩
  obtain ⟨r, hr⟩ := hv v hvv hn
  exact ⟨r, h.find?_venues _ hr⟩

/-- Coverage only reads the four entity tables, so it transfers between
stores whose tables agree (e.g. across the run-log append). -/
theorem artistCovered_of_tables {s s' : Store} (ha : s'.artists = s.artists)
    (hl : s'.lineups = s.lineups) {fid : Nat} {a : RAArtist}
    (h : ArtistCovered s fid a) : ArtistCovered s' fid a := by
  unfold ArtistCovered at *
  rw [ha, hl]
  exact h

theorem covered_of_tables {s s' : Store} (hv : s'.venues = s.venues)
    (ha : s'.artists = s.artists) (hf : s'.festivals = s.festivals)
    (hl : s'.lineups = s.lineups) {l : RAEventListing} (h : Covered s l) :
    Covered s' l := by
  unfold Covered ArtistCovered at *
  simp only [hv, ha, hf, hl]
  exact h

/-- A fault-free `processArtist` leaves the artist covered. -/
theorem processArtist_covers (ev : RAEvent) (fid : Nat) (a : RAArtist)
    (s : Store) (acc : RunAcc) :
    ArtistCovered (processArtist ev fid a none s acc).1 fid a := by
  show ArtistCovered (insertLineup fid (upsertArtist a s).1 (jsDatePart ev.date)
    (jsTimePart ev.startTime) (jsTimePart ev.endTime) (upsertArtist a s).2) fid a
  obtain ⟨ar, hfind, hid⟩ := upsertArtist_spec a s
  refine ⟨ar, (insertLineup_ext _ _ _ _ _ _).find?_artists _ hfind, ?_⟩
  obtain ⟨lr, hm, h1, h2⟩ := insertLineup_mem fid (upsertArtist a s).1
    (jsDatePart ev.date) (jsTimePart ev.startTime) (jsTimePart ev.endTime)
    (upsertArtist a s).2
  exact ⟨lr, hm, h1, h2.trans hid.symm⟩

/-- A fault-free artist loop covers every artist in the list. -/
theorem artistsLoop_covers (ev : RAEvent) (fid : Nat)
    (artists : List RAArtist) (fault : Nat → Option String)
    (hfault : ∀ j, fault j = none) (s : Store) (acc : RunAcc) :
    ∀ a ∈ artists,
      ArtistCovered (artistsLoop ev fid artists fault s acc).1 fid a := by
  induction artists generalizing fault s acc with
  | nil => intro a ha; cases ha
  | cons b rest ih =>
    intro a ha
    simp only [artistsLoop]
    rcases List.mem_cons.mp ha with rfl | ha'
    · rw [hfault 0]
      exact artistCovered_mono (artistsLoop_ext ev fid rest _ _ _)
        (processArtist_covers ev fid a s acc)
    · exact ih (fun j => fault (j + 1)) (fun j => hfault (j + 1)) _ _ a ha'

/-- When every artist is already covered and no write faults, the artist
loop leaves the store unchanged. -/
theorem artistsLoop_noop (ev : RAEvent) (fid : Nat)
    (artists : List RAArtist) (fault : Nat → Option String)
    (hfault : ∀ j, fault j = none) (s : Store) (acc : RunAcc)
    (hcov : ∀ a ∈ artists, ArtistCovered s fid a) :
    (artistsLoop ev fid artists fault s acc).1 = s := by
  induction artists generalizing fault acc with
  | nil => rfl
  | cons b rest ih =>
    simp only [artistsLoop]
    rw [hfault 0]
    obtain ⟨ar, hfind, hpair⟩ := hcov b (List.mem_cons_self b rest)
    have h1 : upsertArtist b s = (ar.id, s) := upsertArtist_noop b s ar hfind
    have h2 : processArtist ev fid b none s acc =
        (s, { acc with artistsFound := acc.artistsFound + 1 }) := by
      unfold processArtist
      simp only [h1]
      rw [insertLineup_noop fid ar.id (jsDatePart ev.date)
        (jsTimePart ev.startTime) (jsTimePart ev.endTime) s hpair]
    rw [h2]
    exact ih (fun j => fault (j + 1)) (fun j => hfault (j + 1)) _
      (fun a ha => hcov a (List.mem_cons_of_mem b ha))

/-- A fault-free `processListing` covers the listing. -/
theorem processListing_covers (l : RAEventListing)
    (fault : Nat → Option String) (hfault : ∀ j, fault j = none)
    (s : Store) (acc : RunAcc) :
    Covered (processListing l fault s acc).1 l := by
  show Covered (artistsLoop l.event
    (upsertFestival l.event (upsertVenue l.event s).1 (upsertVenue l.event s).2).1
    l.event.artists fault
    (upsertFestival l.event (upsertVenue l.event s).1 (upsertVenue l.event s).2).2
    { acc with festivalsFound := acc.festivalsFound + 1 }).1 l
  obtain ⟨fr, hfr, hfrid⟩ :=
    upsertFestival_spec l.event (upsertVenue l.event s).1 (upsertVenue l.event s).2
  have hext : Ext (upsertFestival l.event (upsertVenue l.event s).1
      (upsertVenue l.event s).2).2
      (artistsLoop l.event
        (upsertFestival l.event (upsertVenue l.event s).1 (upsertVenue l.event s).2).1
        l.event.artists fault
        (upsertFestival l.event (upsertVenue l.event s).1 (upsertVenue l.event s).2).2
        { acc with festivalsFound := acc.festivalsFound + 1 }).1 :=
    artistsLoop_ext _ _ _ _ _ _
  refine ⟨fun v hv hn => ?_, fr, hext.find?_festivals _ hfr, fun a ha => ?_⟩
  · obtain ⟨r, hr⟩ := upsertVenue_found l.event s v hv hn
    exact ⟨r, (((upsertFestival_ext l.event _ _).trans hext).find?_venues _ hr)⟩
  · rw [hfrid]
    exact artistsLoop_covers l.event _ l.event.artists fault hfault _ _ a ha

/-- When the listing is already covered and no write faults, processing it
leaves the store unchanged. -/
theorem processListing_noop (l : RAEventListing)
    (fault : Nat → Option String) (hfault : ∀ j, fault j = none)
    (s : Store) (acc : RunAcc) (hcov : Covered s l) :
    (processListing l fault s acc).1 = s := by
  obtain ⟨hv, fr, hfr, hart⟩ := hcov
  have h1 : (upsertVenue l.event s).2 = s := upsertVenue_noop l.event s hv
  have h2 : upsertFestival l.event (upsertVenue l.event s).1 s = (fr.id, s) :=
    upsertFestival_noop l.event (upsertVenue l.event s).1 s fr hfr
  unfold processListing
  rw [h1]
  simp only [h2]
  exact artistsLoop_noop l.event fr.id l.event.artists fault hfault s _ hart

/-- A fault-free listing loop covers every processed listing. -/
theorem listingsLoop_covers (L : List RAEventListing)
    (fault : Nat → Nat → Option String)
    (hfault : ∀ i j, fault i j = none) (s : Store) (acc : RunAcc) :
    ∀ l ∈ L, Covered (listingsLoop L fault s acc).1 l := by
  induction L generalizing fault s acc with
  | nil => intro l hl; cases hl
  | cons x rest ih =>
    intro l hl
    simp only [listingsLoop]
    rcases List.mem_cons.mp hl with rfl | hl'
    · exact covered_mono (listingsLoop_ext rest _ _ _)
        (processListing_covers l (fault 0) (hfault 0) s acc)
    · exact ih (fun i => fault (i + 1)) (fun i => hfault (i + 1)) _ _ l hl'

/-- When every listing is already covered and no write faults, the listing
loop leaves the store unchanged. -/
theorem listingsLoop_noop (L : List RAEventListing)
    (fault : Nat → Nat → Option String)
    (hfault : ∀ i j, fault i j = none) (s : Store) (acc : RunAcc)
    (hcov : ∀ l ∈ L, Covered s l) :
    (listingsLoop L fault s acc).1 = s := by
  induction L generalizing fault acc with
  | nil => rfl
  | cons x rest ih =>
    simp only [listingsLoop]
    rw [processListing_noop x (fault 0) (hfault 0) s acc
      (hcov x (List.mem_cons_self x rest))]
    exact ih (fun i => fault (i + 1)) (fun i => hfault (i + 1)) _
      (fun l hl => hcov l (List.mem_cons_of_mem x hl))

/-! ## Claim theorem: idempotency of the sync -/

/-- C1: running the full area sync a second time over the same listings,
against the store produced by the first run, inserts zero new venue,
artist, festival and lineup rows: each table is left exactly as the
first run left it (first-run lookups find the rows the first run
created or reused, and the lineup conflict insert is a no-op). -/
theorem sync_idempotent (a₁ a₂ : String) (L : List RAEventListing)
    (d₁ d₂ : Nat) (s : Store) :
    (syncArea a₂ (.ok L) noFault d₂ (syncArea a₁ (.ok L) noFault d₁ s).2).2.venues
        = (syncArea a₁ (.ok L) noFault d₁ s).2.venues ∧
    (syncArea a₂ (.ok L) noFault d₂ (syncArea a₁ (.ok L) noFault d₁ s).2).2.artists
        = (syncArea a₁ (.ok L) noFault d₁ s).2.artists ∧
    (syncArea a₂ (.ok L) noFault d₂ (syncArea a₁ (.ok L) noFault d₁ s).2).2.festivals
        = (syncArea a₁ (.ok L) noFault d₁ s).2.festivals ∧
    (syncArea a₂ (.ok L) noFault d₂ (syncArea a₁ (.ok L) noFault d₁ s).2).2.lineups
        = (syncArea a₁ (.ok L) noFault d₁ s).2.lineups := by
  have hcov1 : ∀ l ∈ L, Covered (syncArea a₁ (.ok L) noFault d₁ s).2 l := by
    intro l hl
    exact covered_of_tables rfl rfl rfl rfl
      (listingsLoop_covers L noFault (fun i j => rfl) s ⟨0, 0, []⟩ l hl)
  have hno : (listingsLoop L noFault (syncArea a₁ (.ok L) noFault d₁ s).2
      ⟨0, 0, []⟩).1 = (syncArea a₁ (.ok L) noFault d₁ s).2 :=
    listingsLoop_noop L noFault (fun i j => rfl) _ _ hcov1
  refine ⟨?_, ?_, ?_, ?_⟩
  · show (listingsLoop L noFault (syncArea a₁ (.ok L) noFault d₁ s).2
      ⟨0, 0, []⟩).1.venues = _
    rw [hno]
  · show (listingsLoop L noFault (syncArea a₁ (.ok L) noFault d₁ s).2
      ⟨0, 0, []⟩).1.artists = _
    rw [hno]
  · show (listingsLoop L noFault (syncArea a₁ (.ok L) noFault d₁ s).2
      ⟨0, 0, []⟩).1.festivals = _
    rw [hno]
  · show (listingsLoop L noFault (syncArea a₁ (.ok L) noFault d₁ s).2
      ⟨0, 0, []⟩).1.lineups = _
    rw [hno]

/-! ## Lineup uniqueness -/

/-- No two lineup rows share the same `(festivalId, artistId)` pair: the
state the unique index `unique_lineup` enforces. -/
def LineupKeyUnique (s : Store) : Prop :=
  s.lineups.Pairwise
    (fun a b => ¬(a.festivalId = b.festivalId ∧ a.artistId = b.artistId))

theorem insertLineup_nodup {s : Store} (h : LineupKeyUnique s)
    (fid aid : Nat) (pd st et : Option String) :
    LineupKeyUnique (insertLineup fid aid pd st et s) := by
  unfold insertLineup
  split
  · exact h
  · rename_i hany
    unfold LineupKeyUnique at *
    show List.Pairwise _ (s.lineups ++ [_])
    rw [List.pairwise_append]
    refine ⟨h, List.pairwise_singleton _ _, ?_⟩
    intro a ha b hb
    rw [List.mem_singleton] at hb
    subst hb
    rintro ⟨e1, e2⟩
    exact hany (List.any_eq_true.mpr ⟨a, ha, by simp_all⟩)

theorem upsertVenue_lineups (ev : RAEvent) (s : Store) :
    (upsertVenue ev s).2.lineups = s.lineups := by
  unfold upsertVenue
  split
  · rfl
  · split
    · rfl
    · split
      · rfl
      · rfl

theorem upsertArtist_lineups (a : RAArtist) (s : Store) :
    (upsertArtist a s).2.lineups = s.lineups := by
  unfold upsertArtist
  split
  · rfl
  · rfl

theorem upsertFestival_lineups (ev : RAEvent) (venueId : Option Nat)
    (s : Store) : (upsertFestival ev venueId s).2.lineups = s.lineups := by
  unfold upsertFestival
  split
  · rfl
  · rfl

theorem processArtist_nodup (ev : RAEvent) (fid : Nat) (a : RAArtist)
    (fault : Option String) (s : Store) (acc : RunAcc)
    (h : LineupKeyUnique s) :
    LineupKeyUnique (processArtist ev fid a fault s acc).1 := by
  cases fault with
  | some m => exact h
  | none =>
    show LineupKeyUnique (insertLineup fid (upsertArtist a s).1
      (jsDatePart ev.date) (jsTimePart ev.startTime) (jsTimePart ev.endTime)
      (upsertArtist a s).2)
    apply insertLineup_nodup
    unfold LineupKeyUnique at *
    rw [upsertArtist_lineups]
    exact h

theorem artistsLoop_nodup (ev : RAEvent) (fid : Nat)
    (artists : List RAArtist) (fault : Nat → Option String) (s : Store)
    (acc : RunAcc) (h : LineupKeyUnique s) :
    LineupKeyUnique (artistsLoop ev fid artists fault s acc).1 := by
  induction artists generalizing fault s acc with
  | nil => exact h
  | cons b rest ih =>
    exact ih (fun j => fault (j + 1)) _ _
      (processArtist_nodup ev fid b (fault 0) s acc h)

theorem processListing_nodup (l : RAEventListing)
    (fault : Nat → Option String) (s : Store) (acc : RunAcc)
    (h : LineupKeyUnique s) :
    LineupKeyUnique (processListing l fault s acc).1 := by
  apply artistsLoop_nodup
  unfold LineupKeyUnique at *
  rw [upsertFestival_lineups, upsertVenue_lineups]
  exact h

theorem listingsLoop_nodup (L : List RAEventListing)
    (fault : Nat → Nat → Option String) (s : Store) (acc : RunAcc)
    (h : LineupKeyUnique s) :
    LineupKeyUnique (listingsLoop L fault s acc).1 := by
  induction L generalizing fault s acc with
  | nil => exact h
  | cons x rest ih =>
    exact ih (fun i => fault (i + 1)) _ _
      (processListing_nodup x (fault 0) s acc h)

/-- C3: linking the same `(festivalId, artistId)` pair a second time is a
silent no-op (the conflicting insert returns the store unchanged, no
error value exists to raise), and a full area sync preserves the
invariant that no two lineup rows share a pair. -/
theorem lineup_pair_unique :
    (∀ (fid aid : Nat) (pd st et pd' st' et' : Option String) (s : Store),
      insertLineup fid aid pd' st' et' (insertLineup fid aid pd st et s) =
        insertLineup fid aid pd st et s) ∧
    (∀ (areaName : String) (fetched : Except String (List RAEventListing))
        (fault : Nat → Nat → Option String) (duration : Nat) (s : Store),
      LineupKeyUnique s →
      LineupKeyUnique (syncArea areaName fetched fault duration s).2) := by
  constructor
  · intro fid aid pd st et pd' st' et' s
    exact insertLineup_noop fid aid pd' st' et' _
      (insertLineup_mem fid aid pd st et s)
  · intro areaName fetched fault duration s h
    show LineupKeyUnique
      { (syncAreaCore areaName fetched fault s).1 with
        scrapeLogs := _ }
    have hcore : LineupKeyUnique (syncAreaCore areaName fetched fault s).1 := by
      cases fetched with
      | error m => exact h
      | ok L => exact listingsLoop_nodup L fault s ⟨0, 0, []⟩ h
    unfold LineupKeyUnique at *
    exact hcore

/-- C3 witness for `lineup_pair_unique`: the empty store satisfies the
invariant and a concrete sync preserves it. -/
theorem lineup_pair_unique_witness :
    LineupKeyUnique emptyStore ∧
      LineupKeyUnique
        (syncArea "Costa Rica" (.ok []) noFault 0 emptyStore).2 :=
  ⟨List.Pairwise.nil,
   lineup_pair_unique.2 "Costa Rica" (.ok []) noFault 0 emptyStore
     List.Pairwise.nil⟩

/-! ## Run-log lemmas -/

/-- Processing an area's listings never touches the run log. -/
theorem syncAreaCore_logs (areaName : String)
    (fetched : Except String (List RAEventListing))
    (fault : Nat → Nat → Option String) (s : Store) :
    (syncAreaCore areaName fetched fault s).1.scrapeLogs = s.scrapeLogs := by
  cases fetched with
  | error m => rfl
  | ok L => exact (listingsLoop_ext L fault s ⟨0, 0, []⟩).logs

/-- C5: every `syncArea` run appends exactly one run-log row to the log;
its status is `"success"` exactly when zero errors were collected and
`"partial"` otherwise, and its error list is the first (oldest) 20 of
the collected errors, hence never longer than 20. -/
theorem runlog_classification (areaName : String)
    (fetched : Except String (List RAEventListing))
    (fault : Nat → Nat → Option String) (duration : Nat) (s : Store) :
    ∃ log : LogRow,
      (syncArea areaName fetched fault duration s).2.scrapeLogs =
        s.scrapeLogs ++ [log] ∧
      log.status = (if (syncArea areaName fetched fault duration s).1.errors = []
        then "success" else "partial") ∧
      log.errors =
        (syncArea areaName fetched fault duration s).1.errors.take 20 ∧
      log.errors.length ≤ 20 ∧
      log.festivalsFound =
        (syncArea areaName fetched fault duration s).1.festivalsFound ∧
      log.artistsFound =
        (syncArea areaName fetched fault duration s).1.artistsFound := by
  refine ⟨areaLog (syncAreaCore areaName fetched fault s).2 duration,
    ?_, ?_, rfl, List.length_take_le 20 _, rfl, rfl⟩
  · show (syncAreaCore areaName fetched fault s).1.scrapeLogs ++ _ =
      s.scrapeLogs ++ _
    rw [syncAreaCore_logs]
  · have herr : (syncArea areaName fetched fault duration s).1.errors =
        (syncAreaCore areaName fetched fault s).2.errors := rfl
    show (if ((syncAreaCore areaName fetched fault s).2.errors).length > 0
      then "partial" else "success") = _
    rw [herr]
    by_cases h : (syncAreaCore areaName fetched fault s).2.errors = []
    · rw [h]
      simp
    · rw [if_pos (List.length_pos.mpr h), if_neg h]

/-- C8: one invocation of the orchestrator entry point (`main`, over its
hard-coded region list) writes exactly one run-log row: the final log is
the initial log with one row appended, so prior rows are never mutated
or removed. -/
theorem single_runlog_row (env : String × Nat → AreaEnv) (s : Store) :
    ∃ log : LogRow,
      (runMain env s).2.scrapeLogs = s.scrapeLogs ++ [log] := by
  refine ⟨areaLog (syncAreaCore "Costa Rica"
    (env ("Costa Rica", 26)).fetched (env ("Costa Rica", 26)).fault s).2
    (env ("Costa Rica", 26)).duration, ?_⟩
  show (syncAreaCore "Costa Rica" (env ("Costa Rica", 26)).fetched
    (env ("Costa Rica", 26)).fault s).1.scrapeLogs ++ _ = s.scrapeLogs ++ _
  rw [syncAreaCore_logs]

/-! ## Counter arithmetic: what `festivalsFound`/`artistsFound` count -/

theorem artistsLoop_counts (ev : RAEvent) (fid : Nat)
    (artists : List RAArtist) (fault : Nat → Option String)
    (hfault : ∀ j, fault j = none) (s : Store) (acc : RunAcc) :
    (artistsLoop ev fid artists fault s acc).2.festivalsFound =
        acc.festivalsFound ∧
    (artistsLoop ev fid artists fault s acc).2.artistsFound =
        acc.artistsFound + artists.length ∧
    (artistsLoop ev fid artists fault s acc).2.errors = acc.errors := by
  induction artists generalizing fault s acc with
  | nil => exact ⟨rfl, rfl, rfl⟩
  | cons b rest ih =>
    simp only [artistsLoop]
    rw [hfault 0]
    obtain ⟨h1, h2, h3⟩ := ih (fun j => fault (j + 1)) (fun j => hfault (j + 1))
      (processArtist ev fid b none s acc).1
      (processArtist ev fid b none s acc).2
    refine ⟨h1.trans rfl, ?_, h3.trans rfl⟩
    rw [h2]
    show ({ acc with artistsFound := acc.artistsFound + 1 } : RunAcc).artistsFound
      + rest.length = _
    simp only [List.length_cons]
    omega

theorem processListing_counts (l : RAEventListing)
    (fault : Nat → Option String) (hfault : ∀ j, fault j = none)
    (s : Store) (acc : RunAcc) :
    (processListing l fault s acc).2.festivalsFound =
        acc.festivalsFound + 1 ∧
    (processListing l fault s acc).2.artistsFound =
        acc.artistsFound + l.event.artists.length ∧
    (processListing l fault s acc).2.errors = acc.errors := by
  unfold processListing
  obtain ⟨h1, h2, h3⟩ := artistsLoop_counts l.event
    (upsertFestival l.event (upsertVenue l.event s).1 (upsertVenue l.event s).2).1
    l.event.artists fault hfault
    (upsertFestival l.event (upsertVenue l.event s).1 (upsertVenue l.event s).2).2
    { acc with festivalsFound := acc.festivalsFound + 1 }
  exact ⟨h1, h2, h3⟩

theorem listingsLoop_counts (L : List RAEventListing)
    (fault : Nat → Nat → Option String)
    (hfault : ∀ i j, fault i j = none) (s : Store) (acc : RunAcc) :
    (listingsLoop L fault s acc).2.festivalsFound =
        acc.festivalsFound + L.length ∧
    (listingsLoop L fault s acc).2.artistsFound =
        acc.artistsFound + (L.map (fun l => l.event.artists.length)).sum ∧
    (listingsLoop L fault s acc).2.errors = acc.errors := by
  induction L generalizing fault s acc with
  | nil => exact ⟨rfl, rfl, rfl⟩
  | cons x rest ih =>
    simp only [listingsLoop]
    obtain ⟨p1, p2, p3⟩ := processListing_counts x (fault 0) (hfault 0) s acc
    obtain ⟨h1, h2, h3⟩ := ih (fun i => fault (i + 1))
      (fun i => hfault (i + 1)) (processListing x (fault 0) s acc).1
      (processListing x (fault 0) s acc).2
    refine ⟨?_, ?_, h3.trans p3⟩
    · rw [h1, p1, List.length_cons]
      omega
    · rw [h2, p2, List.map_cons, List.sum_cons]
      omega

/-- C10: `festivalsFound` counts every listing processed (one per listing,
whether or not its festival already existed) and `artistsFound` counts
every artist occurrence processed (repeats and already-known artists
included); a second fault-free run over the same listings therefore
reports the same counts as the first even though it inserts no rows, and
its run-log row records those counts. -/
theorem second_run_counts (a₁ a₂ : String) (L : List RAEventListing)
    (d₁ d₂ : Nat) (s : Store) :
    (syncArea a₁ (.ok L) noFault d₁ s).1.festivalsFound = L.length ∧
    (syncArea a₁ (.ok L) noFault d₁ s).1.artistsFound =
      (L.map (fun l => l.event.artists.length)).sum ∧
    (syncArea a₂ (.ok L) noFault d₂
        (syncArea a₁ (.ok L) noFault d₁ s).2).1.festivalsFound = L.length ∧
    (syncArea a₂ (.ok L) noFault d₂
        (syncArea a₁ (.ok L) noFault d₁ s).2).1.artistsFound =
      (L.map (fun l => l.event.artists.length)).sum ∧
    ∃ log : LogRow,
      (syncArea a₂ (.ok L) noFault d₂
          (syncArea a₁ (.ok L) noFault d₁ s).2).2.scrapeLogs =
        (syncArea a₁ (.ok L) noFault d₁ s).2.scrapeLogs ++ [log] ∧
      log.festivalsFound = L.length ∧
      log.artistsFound = (L.map (fun l => l.event.artists.length)).sum := by
  have key : ∀ (a : String) (d : Nat) (st : Store),
      (syncArea a (.ok L) noFault d st).1.festivalsFound = L.length ∧
      (syncArea a (.ok L) noFault d st).1.artistsFound =
        (L.map (fun l => l.event.artists.length)).sum := by
    intro a d st
    obtain ⟨h1, h2, h3⟩ :=
      listingsLoop_counts L noFault (fun i j => rfl) st ⟨0, 0, []⟩
    constructor
    · show (listingsLoop L noFault st ⟨0, 0, []⟩).2.festivalsFound = L.length
      rw [h1]
      simp
    · show (listingsLoop L noFault st ⟨0, 0, []⟩).2.artistsFound =
        (L.map (fun l => l.event.artists.length)).sum
      rw [h2]
      simp
  refine ⟨(key a₁ d₁ s).1, (key a₁ d₁ s).2, (key a₂ d₂ _).1, (key a₂ d₂ _).2,
    areaLog (syncAreaCore a₂ (.ok L) noFault
      (syncArea a₁ (.ok L) noFault d₁ s).2).2 d₂, ?_, ?_, ?_⟩
  · show (syncAreaCore a₂ (.ok L) noFault
      (syncArea a₁ (.ok L) noFault d₁ s).2).1.scrapeLogs ++ _ = _
    rw [syncAreaCore_logs]
  · exact (key a₂ d₂ _).1
  · exact (key a₂ d₂ _).2

/-! ## Per-artist failure isolation -/

theorem processArtist_errors (ev : RAEvent) (fid : Nat) (a : RAArtist)
    (fault : Option String) (s : Store) (acc : RunAcc) :
    ∃ t, (processArtist ev fid a fault s acc).2.errors = acc.errors ++ t := by
  cases fault with
  | some m => exact ⟨_, rfl⟩
  | none => exact ⟨[], (List.append_nil _).symm⟩

theorem artistsLoop_errors (ev : RAEvent) (fid : Nat)
    (artists : List RAArtist) (fault : Nat → Option String) (s : Store)
    (acc : RunAcc) :
    ∃ t, (artistsLoop ev fid artists fault s acc).2.errors =
      acc.errors ++ t := by
  induction artists generalizing fault s acc with
  | nil => exact ⟨[], (List.append_nil _).symm⟩
  | cons b rest ih =>
    simp only [artistsLoop]
    obtain ⟨t1, h1⟩ := processArtist_errors ev fid b (fault 0) s acc
    obtain ⟨t2, h2⟩ := ih (fun j => fault (j + 1))
      (processArtist ev fid b (fault 0) s acc).1
      (processArtist ev fid b (fault 0) s acc).2
    exact ⟨t1 ++ t2, by rw [h2, h1, List.append_assoc]⟩

/-- A faulted artist's error message ends up in the collected errors. -/
theorem artistsLoop_error_mem (ev : RAEvent) (fid : Nat)
    (artists : List RAArtist) (fault : Nat → Option String) (s : Store)
    (acc : RunAcc) (k : Nat) (msg : String) (hk : k < artists.length)
    (hf : fault k = some msg) :
    ("Artist " ++ (artists.get ⟨k, hk⟩).name ++ ": " ++ msg) ∈
      (artistsLoop ev fid artists fault s acc).2.errors := by
  induction artists generalizing fault s acc k with
  | nil => exact absurd hk (by simp)
  | cons b rest ih =>
    simp only [artistsLoop]
    cases k with
    | zero =>
      rw [hf]
      obtain ⟨t, ht⟩ := artistsLoop_errors ev fid rest (fun j => fault (j + 1))
        (processArtist ev fid b (some msg) s acc).1
        (processArtist ev fid b (some msg) s acc).2
      rw [ht]
      show _ ∈ (acc.errors ++ ["Artist " ++ b.name ++ ": " ++ msg]) ++ t
      exact List.mem_append_left t
        (List.mem_append_right _ (List.mem_singleton.mpr rfl))
    | succ k' =>
      exact ih (fun j => fault (j + 1)) _ _ k' (Nat.lt_of_succ_lt_succ hk) hf

/-- Every non-faulted artist of the loop ends up covered, whatever faults
hit the other artists. -/
theorem artistsLoop_covers_nonfaulted (ev : RAEvent) (fid : Nat)
    (artists : List RAArtist) (fault : Nat → Option String) (s : Store)
    (acc : RunAcc) (j : Nat) (hj : j < artists.length)
    (hf : fault j = none) :
    ArtistCovered (artistsLoop ev fid artists fault s acc).1 fid
      (artists.get ⟨j, hj⟩) := by
  induction artists generalizing fault s acc j with
  | nil => exact absurd hj (by simp)
  | cons b rest ih =>
    simp only [artistsLoop]
    cases j with
    | zero =>
      rw [hf]
      exact artistCovered_mono (artistsLoop_ext ev fid rest _ _ _)
        (processArtist_covers ev fid b s acc)
    | succ j' =>
      exact ih (fun j => fault (j + 1)) _ _ j' (Nat.lt_of_succ_lt_succ hj) hf

/-- C6: when the store write for artist `k` of a listing throws, the error
is recorded as a string keyed by that artist's name, while every artist
whose own write does not throw (in particular every later artist) is
still upserted and linked, and the listing's venue and festival rows are
persisted. -/
theorem artist_failure_isolation (l : RAEventListing)
    (fault : Nat → Option String) (k : Nat) (msg : String) (s : Store)
    (acc : RunAcc) (hk : k < l.event.artists.length)
    (hf : fault k = some msg) :
    ("Artist " ++ (l.event.artists.get ⟨k, hk⟩).name ++ ": " ++ msg) ∈
      (processListing l fault s acc).2.errors ∧
    (∀ v, l.event.venue = some v → ¬v.name = "" →
      ∃ r, (processListing l fault s acc).1.venues.find?
        (fun x => x.name == v.name) = some r) ∧
    ∃ fr : FestivalRow,
      (processListing l fault s acc).1.festivals.find?
        (fun r => r.slug == festSlug l.event) = some fr ∧
      ∀ (j : Nat) (hj : j < l.event.artists.length), fault j = none →
        ArtistCovered (processListing l fault s acc).1 fr.id
          (l.event.artists.get ⟨j, hj⟩) := by
  obtain ⟨fr, hfr, hfrid⟩ := upsertFestival_spec l.event
    (upsertVenue l.event s).1 (upsertVenue l.event s).2
  have hext : Ext (upsertFestival l.event (upsertVenue l.event s).1
      (upsertVenue l.event s).2).2
      (artistsLoop l.event
        (upsertFestival l.event (upsertVenue l.event s).1 (upsertVenue l.event s).2).1
        l.event.artists fault
        (upsertFestival l.event (upsertVenue l.event s).1 (upsertVenue l.event s).2).2
        { acc with festivalsFound := acc.festivalsFound + 1 }).1 :=
    artistsLoop_ext _ _ _ _ _ _
  refine ⟨?_, fun v hv hn => ?_, fr, hext.find?_festivals _ hfr,
    fun j hj hfj => ?_⟩
  · exact artistsLoop_error_mem l.event _ l.event.artists fault _ _ k msg hk hf
  · obtain ⟨r, hr⟩ := upsertVenue_found l.event s v hv hn
    exact ⟨r, ((upsertFestival_ext l.event _ _).trans hext).find?_venues _ hr⟩
  · rw [hfrid]
    exact artistsLoop_covers_nonfaulted l.event _ l.event.artists fault _ _
      j hj hfj

/-- A two-artist listing used to witness the isolation theorem. -/
def isoListing : RAEventListing :=
  { id := "L1", listingDate := "2026-02-23",
    event :=
    { id := "9", title := "Fest", date := none, startTime := none,
      endTime := none, contentUrl := none, attending := 0, images := [],
      venue := some { id := "v", name := "Club X", address := none,
                      area := none },
      artists := [{ id := "a1", name := "DJ One" },
                  { id := "a2", name := "DJ Two" }] } }

/-- A fault oracle that fails exactly the first artist write. -/
def isoFault : Nat → Option String :=
  fun j => if j = 0 then some "boom" else none

/-- C6 witness for `artist_failure_isolation`: with the first of two artist
writes throwing, the keyed error message is collected. -/
theorem artist_failure_isolation_witness :
    0 < isoListing.event.artists.length ∧ isoFault 0 = some "boom" ∧
      "Artist DJ One: boom" ∈
        (processListing isoListing isoFault emptyStore ⟨0, 0, []⟩).2.errors := by
  refine ⟨by decide, by decide, ?_⟩
  have h := (artist_failure_isolation isoListing isoFault 0 "boom" emptyStore
    ⟨0, 0, []⟩ (by decide) (by decide)).1
  have e : ("Artist " ++ (isoListing.event.artists.get
      ⟨0, by decide⟩).name ++ ": " ++ "boom") = "Artist DJ One: boom" := by
    decide
  rw [e] at h
  exact h

/-! ## Pagination lemmas -/

/-- One run of the pagination loop over all-`ok` pages, reaching its stop
page `s` (first empty page or first page on which the cumulative count
reaches `totalResults`).  Only pages `1..s` are ever consulted, so the
responder is constrained nowhere else. -/
theorem fetchAux_run (respond : Nat → PageResp)
    (data : Nat → List RAEventListing) (total s : Nat)
    (hresp : ∀ p, 1 ≤ p → p ≤ s → respond p = .ok (data p) total)
    (hbefore : ∀ p, 1 ≤ p → p < s →
      data p ≠ [] ∧ (pagesConcat data p).length < total)
    (hstop : data s = [] ∨ total ≤ (pagesConcat data s).length) :
    ∀ (fuel page : Nat), 1 ≤ page → page ≤ s → s < page + fuel →
    fetchRAEventsAux respond fuel page (pagesConcat data (page - 1)) =
      some (if data s = [] then pagesConcat data (s - 1)
            else pagesConcat data s) := by
  intro fuel
  induction fuel with
  | zero => intro page _ h2 h3; omega
  | succ fuel ih =>
    intro page h1 h2 h3
    have hacc : pagesConcat data (page - 1) ++ data page =
        pagesConcat data page := by
      have hp : page - 1 + 1 = page := by omega
      conv_rhs => rw [← hp]
      rw [pagesConcat, hp]
    by_cases hps : page = s
    · subst hps
      rcases hstop with hempty | htot
      · simp only [fetchRAEventsAux, hresp page h1 h2, hempty,
          List.length_nil]
        simp
      · by_cases hde : data page = []
        · simp only [fetchRAEventsAux, hresp page h1 h2, hde,
            List.length_nil]
          simp
        · have hlen : ¬(data page).length = 0 :=
            fun h => hde (List.length_eq_zero.mp h)
          simp only [fetchRAEventsAux, hresp page h1 h2, if_neg hlen, hacc,
            if_pos htot, if_neg hde]
    · have hlt : page < s := lt_of_le_of_ne h2 hps
      obtain ⟨hne, hcum⟩ := hbefore page h1 hlt
      have hlen : ¬(data page).length = 0 :=
        fun h => hne (List.length_eq_zero.mp h)
      have hrec := ih (page + 1) (by omega) (by omega) (by omega)
      rw [show page + 1 - 1 = page from by omega] at hrec
      simp only [fetchRAEventsAux, hresp page h1 (le_of_lt hlt), if_neg hlen,
        hacc, if_neg (not_le.mpr hcum)]
      exact hrec

/-- One run of the pagination loop that dies on a non-success transport
response at page `s`, after `s - 1` full pages. -/
theorem fetchAux_http (respond : Nat → PageResp)
    (data : Nat → List RAEventListing) (total s status : Nat)
    (hresp : ∀ p, 1 ≤ p → p < s → respond p = .ok (data p) total)
    (hs : respond s = .httpError status)
    (hbefore : ∀ p, 1 ≤ p → p < s →
      data p ≠ [] ∧ (pagesConcat data p).length < total) :
    ∀ (fuel page : Nat), 1 ≤ page → page ≤ s → s < page + fuel →
    fetchRAEventsAux respond fuel page (pagesConcat data (page - 1)) =
      some (pagesConcat data (s - 1)) := by
  intro fuel
  induction fuel with
  | zero => intro page _ h2 h3; omega
  | succ fuel ih =>
    intro page h1 h2 h3
    by_cases hps : page = s
    · subst hps
      simp only [fetchRAEventsAux, hs]
    · have hlt : page < s := lt_of_le_of_ne h2 hps
      obtain ⟨hne, hcum⟩ := hbefore page h1 hlt
      have hlen : ¬(data page).length = 0 :=
        fun h => hne (List.length_eq_zero.mp h)
      have hacc : pagesConcat data (page - 1) ++ data page =
          pagesConcat data page := by
        have hp : page - 1 + 1 = page := by omega
        conv_rhs => rw [← hp]
        rw [pagesConcat, hp]
      have hrec := ih (page + 1) (by omega) (by omega) (by omega)
      rw [show page + 1 - 1 = page from by omega] at hrec
      simp only [fetchRAEventsAux, hresp page h1 hlt, if_neg hlen, hacc,
        if_neg (not_le.mpr hcum)]
      exact hrec

/-- C4: pagination terminates and collects.  (i) If some page returns zero
items, the loop returns (`some`) within that many pages of fuel.
(ii) If pages `1..p₀-1` are non-empty and keep the cumulative count
below the declared total, and page `p₀` is empty, the result is exactly
the concatenation of the non-empty pages in order.  (iii) Once the
cumulative count reaches the declared total at page `k`, the loop
returns the pages `1..k` and consults no page beyond `k`: the responder
is arbitrary there. -/
theorem fetchRA_pagination :
    (∀ (data : Nat → List RAEventListing) (total p₀ fuel : Nat),
      1 ≤ p₀ → data p₀ = [] → p₀ ≤ fuel →
      ∃ r, fetchRAEvents (fun p => .ok (data p) total) fuel = some r) ∧
    (∀ (data : Nat → List RAEventListing) (total p₀ fuel : Nat),
      1 ≤ p₀ → data p₀ = [] →
      (∀ p, 1 ≤ p → p < p₀ →
        data p ≠ [] ∧ (pagesConcat data p).length < total) →
      p₀ ≤ fuel →
      fetchRAEvents (fun p => .ok (data p) total) fuel =
        some (pagesConcat data (p₀ - 1))) ∧
    (∀ (respond : Nat → PageResp) (data : Nat → List RAEventListing)
        (total k fuel : Nat),
      1 ≤ k → k ≤ fuel →
      (∀ p, 1 ≤ p → p ≤ k → respond p = .ok (data p) total) →
      (∀ p, 1 ≤ p → p < k →
        data p ≠ [] ∧ (pagesConcat data p).length < total) →
      data k ≠ [] → total ≤ (pagesConcat data k).length →
      fetchRAEvents respond fuel = some (pagesConcat data k)) := by
  refine ⟨?_, ?_, ?_⟩
  · intro data total p₀ fuel hp1 hp0 hfuel
    have hex : ∃ p, 1 ≤ p ∧
        (data p = [] ∨ total ≤ (pagesConcat data p).length) :=
      ⟨p₀, hp1, Or.inl hp0⟩
    obtain ⟨hs1, hsstop⟩ := Nat.find_spec hex
    have hsle : Nat.find hex ≤ p₀ := Nat.find_min' hex ⟨hp1, Or.inl hp0⟩
    have hbefore : ∀ p, 1 ≤ p → p < Nat.find hex →
        data p ≠ [] ∧ (pagesConcat data p).length < total := by
      intro p h1 hlt
      have hmin := Nat.find_min hex hlt
      exact ⟨fun he => hmin ⟨h1, Or.inl he⟩,
        Nat.lt_of_not_le (fun hle => hmin ⟨h1, Or.inr hle⟩)⟩
    exact ⟨_, fetchAux_run (fun p => .ok (data p) total) data total
      (Nat.find hex) (fun p _ _ => rfl) hbefore hsstop fuel 1 le_rfl hs1
      (by omega)⟩
  · intro data total p₀ fuel hp1 hp0 hbefore hfuel
    have h := fetchAux_run (fun p => .ok (data p) total) data total p₀
      (fun p _ _ => rfl) hbefore (Or.inl hp0) fuel 1 le_rfl hp1 (by omega)
    rw [if_pos hp0] at h
    exact h
  · intro respond data total k fuel hk1 hfuel hresp hbefore hne htot
    have h := fetchAux_run respond data total k hresp hbefore (Or.inr htot)
      fuel 1 le_rfl hk1 (by omega)
    rw [if_neg hne] at h
    exact h

/-- A one-page mock response sequence for the pagination witness. -/
def wData : Nat → List RAEventListing :=
  fun p => if p = 1 then [isoListing] else []

/-- C4 witness for `fetchRA_pagination`: one non-empty page then an empty
page; the loop returns exactly the non-empty page's listings. -/
theorem fetchRA_pagination_witness :
    (1 ≤ 2) ∧ wData 2 = [] ∧
    (∀ p, 1 ≤ p → p < 2 →
      wData p ≠ [] ∧ (pagesConcat wData p).length < 10) ∧
    fetchRAEvents (fun p => .ok (wData p) 10) 2 =
      some (pagesConcat wData 1) := by
  have hb : ∀ p, 1 ≤ p → p < 2 →
      wData p ≠ [] ∧ (pagesConcat wData p).length < 10 := by
    intro p h1 h2
    have hp : p = 1 := by omega
    subst hp
    exact ⟨by decide, by decide⟩
  exact ⟨by decide, by decide, hb,
    fetchRA_pagination.2.1 wData 10 2 2 (by decide) (by decide) hb (by decide)⟩

/-- C7: on a non-success transport response at page `q` (after `q - 1`
successful, non-terminating pages), the client stops paginating and
returns the listings accumulated from the earlier pages — a normal
(`some`) return, not an exception. -/
theorem http_graceful_stop (respond : Nat → PageResp)
    (data : Nat → List RAEventListing) (total q status fuel : Nat)
    (hq1 : 1 ≤ q)
    (hresp : ∀ p, 1 ≤ p → p < q → respond p = .ok (data p) total)
    (hs : respond q = .httpError status)
    (hbefore : ∀ p, 1 ≤ p → p < q →
      data p ≠ [] ∧ (pagesConcat data p).length < total)
    (hfuel : q ≤ fuel) :
    fetchRAEvents respond fuel = some (pagesConcat data (q - 1)) :=
  fetchAux_http respond data total q status hresp hs hbefore fuel 1 le_rfl
    hq1 (by omega)

/-- Mock responder for the transport-failure witness: page 1 succeeds,
page 2 is an HTTP 503. -/
def wRespond : Nat → PageResp :=
  fun p => if p = 1 then .ok [isoListing] 10 else .httpError 503

/-- C7 witness for `http_graceful_stop`: after the failed second page the
client returns page 1's listings. -/
theorem http_graceful_stop_witness :
    wRespond 2 = .httpError 503 ∧
      fetchRAEvents wRespond 5 = some [isoListing] := by
  have hb : ∀ p, 1 ≤ p → p < 2 →
      (fun _ : Nat => [isoListing]) p ≠ [] ∧
      (pagesConcat (fun _ => [isoListing]) p).length < 10 := by
    intro p h1 h2
    have hp : p = 1 := by omega
    subst hp
    exact ⟨by decide, by decide⟩
  refine ⟨rfl, ?_⟩
  have h := http_graceful_stop wRespond (fun _ => [isoListing]) 10 2 503 5
    (by decide)
    (by
      intro p h1 h2
      have hp : p = 1 := by omega
      subst hp
      rfl)
    rfl hb (by decide)
  exact h

end FestivalPulse
